import Mathlib

/-!
# Verification of the email-finder pipeline

A shallow embedding, in Lean 4, of the core algorithms of the
`email-finder` Go service: domain resolution (`internal/resolver`),
email-pattern generation (`internal/generator`), email verification
(`internal/verifier`) and the find-email service pipeline
(`internal/service`).  Strings are modelled as `List Char`; Go maps as
association lists; the external effects (DNS lookups, the verification
oracle's HTTP/CLI transport) as explicit function parameters or abstract
call-result inputs.  Machine integers never overflow in the modelled
code paths, so `Nat` is used throughout.
-/

namespace EmailFinder

/-- Strings are modelled as lists of characters. -/
abbrev Str := List Char

/-! ## Go string primitives (ASCII fragment, as exercised by the code) -/

/-- Models Go `strings.ToLower` (ASCII fragment of the Unicode mapping). -/
def toLowerStr (s : Str) : Str := s.map Char.toLower

/-- Models Go `strings.TrimSpace`: drop leading and trailing whitespace. -/
def trimSpaceStr (s : Str) : Str :=
  ((s.dropWhile Char.isWhitespace).reverse.dropWhile Char.isWhitespace).reverse

/-- Models Go `strings.TrimSuffix s suffix`: remove `sfx` once if present. -/
def trimSuffixStr (s sfx : Str) : Str :=
  if sfx <:+ s then s.take (s.length - sfx.length) else s

/-- Models Go `strings.HasPrefix s p` for a one-character `p`. -/
def headIs (c : Char) : Str → Bool
  | [] => false
  | x :: _ => x = c

/-- Models Go `strings.HasSuffix s p` for a one-character `p`. -/
def lastIs (c : Char) (s : Str) : Bool := headIs c s.reverse

end EmailFinder

namespace EmailFinder

/-! ## `internal/resolver`: DomainResolver -/

/-- The mutable company directory (`DomainResolver.companyMap`), a Go
`map[string]string` modelled as an association list: insertion conses a
binding at the front, lookup takes the first match. -/
abbrev CompanyMap := List (Str × Str)

/-- `DomainResult` from `resolver.go` (JSON field `candidates` omitted when
empty in Go; kept as a plain list here). -/
structure DomainResult where
  Domain : Str
  Resolved : Bool
  Method : Str
  Candidates : List Str
deriving DecidableEq, Repr

/-- The seeded `wellKnownCompanies` table from `resolver.go`, verbatim. -/
def wellKnownCompanies : CompanyMap :=
  [ ("google".toList, "google.com".toList)
  , ("alphabet".toList, "google.com".toList)
  , ("microsoft".toList, "microsoft.com".toList)
  , ("apple".toList, "apple.com".toList)
  , ("amazon".toList, "amazon.com".toList)
  , ("meta".toList, "meta.com".toList)
  , ("facebook".toList, "meta.com".toList)
  , ("twitter".toList, "twitter.com".toList)
  , ("x".toList, "x.com".toList)
  , ("linkedin".toList, "linkedin.com".toList)
  , ("netflix".toList, "netflix.com".toList)
  , ("uber".toList, "uber.com".toList)
  , ("airbnb".toList, "airbnb.com".toList)
  , ("spotify".toList, "spotify.com".toList)
  , ("salesforce".toList, "salesforce.com".toList)
  , ("oracle".toList, "oracle.com".toList)
  , ("ibm".toList, "ibm.com".toList)
  , ("intel".toList, "intel.com".toList)
  , ("nvidia".toList, "nvidia.com".toList)
  , ("adobe".toList, "adobe.com".toList)
  , ("paypal".toList, "paypal.com".toList)
  , ("stripe".toList, "stripe.com".toList)
  , ("shopify".toList, "shopify.com".toList)
  , ("zoom".toList, "zoom.us".toList)
  , ("slack".toList, "slack.com".toList)
  , ("dropbox".toList, "dropbox.com".toList)
  , ("tesla".toList, "tesla.com".toList)
  , ("spacex".toList, "spacex.com".toList)
  , ("zepto".toList, "zeptonow.com".toList)
  , ("swiggy".toList, "swiggy.com".toList)
  , ("zomato".toList, "zomato.com".toList)
  , ("flipkart".toList, "flipkart.com".toList)
  , ("myntra".toList, "myntra.com".toList)
  , ("razorpay".toList, "razorpay.com".toList)
  , ("paytm".toList, "paytm.com".toList)
  , ("phonepe".toList, "phonepe.com".toList)
  , ("cred".toList, "cred.club".toList)
  , ("byjus".toList, "byjus.com".toList)
  , ("infosys".toList, "infosys.com".toList)
  , ("tcs".toList, "tcs.com".toList)
  , ("tata".toList, "tata.com".toList)
  , ("reliance".toList, "reliance.co.in".toList)
  , ("wipro".toList, "wipro.com".toList)
  , ("hcl".toList, "hcl.com".toList)
  , ("goldman sachs".toList, "gs.com".toList)
  , ("morgan stanley".toList, "morganstanley.com".toList)
  , ("jpmorgan".toList, "jpmorgan.com".toList)
  , ("jpmorgan chase".toList, "jpmorgan.com".toList)
  , ("bank of america".toList, "bankofamerica.com".toList)
  , ("wells fargo".toList, "wellsfargo.com".toList)
  , ("citibank".toList, "citi.com".toList)
  , ("visa".toList, "visa.com".toList)
  , ("mastercard".toList, "mastercard.com".toList)
  , ("mckinsey".toList, "mckinsey.com".toList)
  , ("bain".toList, "bain.com".toList)
  , ("boston consulting".toList, "bcg.com".toList)
  , ("bcg".toList, "bcg.com".toList)
  , ("deloitte".toList, "deloitte.com".toList)
  , ("pwc".toList, "pwc.com".toList)
  , ("pricewaterhousecoopers".toList, "pwc.com".toList)
  , ("ey".toList, "ey.com".toList)
  , ("ernst young".toList, "ey.com".toList)
  , ("kpmg".toList, "kpmg.com".toList)
  , ("accenture".toList, "accenture.com".toList)
  , ("disney".toList, "disney.com".toList)
  , ("warner bros".toList, "warnerbros.com".toList)
  , ("sony".toList, "sony.com".toList)
  , ("nike".toList, "nike.com".toList)
  , ("adidas".toList, "adidas.com".toList)
  , ("walmart".toList, "walmart.com".toList)
  , ("target".toList, "target.com".toList)
  , ("costco".toList, "costco.com".toList)
  , ("ebay".toList, "ebay.com".toList)
  , ("etsy".toList, "etsy.com".toList)
  , ("ford".toList, "ford.com".toList)
  , ("general motors".toList, "gm.com".toList)
  , ("gm".toList, "gm.com".toList)
  , ("bmw".toList, "bmw.com".toList)
  , ("mercedes".toList, "mercedes-benz.com".toList)
  , ("volkswagen".toList, "volkswagen.com".toList)
  , ("toyota".toList, "toyota.com".toList)
  , ("honda".toList, "honda.com".toList)
  , ("starbucks".toList, "starbucks.com".toList)
  , ("mcdonalds".toList, "mcdonalds.com".toList)
  , ("coca cola".toList, "coca-cola.com".toList)
  , ("pepsi".toList, "pepsico.com".toList)
  , ("pfizer".toList, "pfizer.com".toList)
  , ("johnson johnson".toList, "jnj.com".toList)
  , ("jnj".toList, "jnj.com".toList)
  , ("novartis".toList, "novartis.com".toList)
  , ("roche".toList, "roche.com".toList)
  , ("verizon".toList, "verizon.com".toList)
  , ("at&t".toList, "att.com".toList)
  , ("att".toList, "att.com".toList)
  , ("t-mobile".toList, "t-mobile.com".toList)
  , ("sprint".toList, "sprint.com".toList)
  , ("exxonmobil".toList, "exxonmobil.com".toList)
  , ("chevron".toList, "chevron.com".toList)
  , ("shell".toList, "shell.com".toList)
  , ("bp".toList, "bp.com".toList) ]

/-- The ordered suffix list of `normalizeCompanyName` in `resolver.go`. -/
def companySuffixes : List Str :=
  [ " inc".toList, " llc".toList, " ltd".toList, " corp".toList
  , " corporation".toList, " limited".toList, " company".toList, " co".toList
  , " inc.".toList, " llc.".toList, " ltd.".toList, " corp.".toList ]

/-- `DomainResolver.normalizeCompanyName`: lowercase, sequentially
`TrimSuffix` each entry of the fixed suffix list, then trim spaces. -/
def normalizeCompanyName (name : Str) : Str :=
  trimSpaceStr (companySuffixes.foldl trimSuffixStr (toLowerStr name))

/-- `DomainResolver.isDomain`: contains a dot, no space, splits into at
least two dot-separated parts, and the final part has length at least 2. -/
def isDomain (input : Str) : Bool :=
  if input.contains '.' && !(input.contains ' ') then
    let parts := input.splitOn '.'
    decide (2 ≤ parts.length) && decide (2 ≤ (parts.getLastD []).length)
  else false

/-- The character filter of `DomainResolver.cleanCompanyName`: keep only
lowercase letters, digits and spaces. -/
def keepCleanChar (c : Char) : Bool :=
  ('a' ≤ c && c ≤ 'z') || ('0' ≤ c && c ≤ '9') || c = ' '

/-- `DomainResolver.cleanCompanyName`: normalize, strip all characters but
lowercase alphanumerics and spaces, then delete the spaces and trim. -/
def cleanCompanyName (name : Str) : Str :=
  trimSpaceStr (((normalizeCompanyName name).filter keepCleanChar).filter
    (fun c => !(c = ' ' : Bool)))

/-- Models Go `strings.Fields` for strings whose only whitespace is `' '`
(the inputs here contain no other whitespace). -/
def fieldsStr (s : Str) : List Str := (s.splitOn ' ').filter (fun w => !w.isEmpty)

/-- `DomainResolver.getCompanyVariations`: the name itself, plus (when it
has several words) the first word and the first two words concatenated. -/
def getCompanyVariations (name : Str) : List Str :=
  let words := fieldsStr name
  if 1 < words.length then
    [name, words.getD 0 []] ++
      (if 2 ≤ words.length then [words.getD 0 [] ++ words.getD 1 []] else [])
  else [name]

/-- The fixed TLD list of `generateDomainCandidates`. -/
def candidateTlds : List Str :=
  [ "com".toList, "io".toList, "co".toList, "net".toList, "org".toList
  , "co.uk".toList, "com.au".toList, "ca".toList, "de".toList, "fr".toList ]

/-- The append-if-absent step of `generateDomainCandidates`. -/
def addUnique (cs : List Str) (c : Str) : List Str :=
  if cs.contains c then cs else cs ++ [c]

/-- `DomainResolver.generateDomainCandidates`: the cleaned name crossed
with the TLD list, then each variation crossed with the TLD list,
skipping duplicates. -/
def generateDomainCandidates (companyName : Str) : List Str :=
  let cleaned := cleanCompanyName companyName
  let base := candidateTlds.map (fun tld => cleaned ++ '.' :: tld)
  (getCompanyVariations cleaned).foldl
    (fun acc v => candidateTlds.foldl (fun acc2 tld => addUnique acc2 (v ++ '.' :: tld)) acc)
    base

/-- `DomainResolver.GetCompanyDomain`: look the normalized name up in the
company map (read-lock elided: the embedding is sequential). -/
def getCompanyDomain (m : CompanyMap) (companyName : Str) : Option Str :=
  m.lookup (normalizeCompanyName companyName)

/-- `DomainResolver.AddCompanyDomain`: store `domain` under the normalized
name (write-lock elided; front insertion shadows any earlier binding,
matching Go map assignment for lookups). -/
def addCompanyDomain (companyName domain : Str) (m : CompanyMap) : CompanyMap :=
  (normalizeCompanyName companyName, domain) :: m

/-- `DomainResolver.ResolveDomain`.  The DNS oracle `dns` models
`verifyDomain` (MX, then A, then CNAME probes — abstracted to a single
boolean verdict per domain).  In the direct-domain branch the Go code
returns the same result whether or not the DNS check succeeds, which the
embedding keeps as an `if` with identical branches.  The `pattern`
fallback indexes `candidates[0]` in Go; `headD []` is used here (the
candidate list is provably never empty). -/
def resolveDomain (dns : Str → Bool) (m : CompanyMap) (companyName : Str) : DomainResult :=
  let name := trimSpaceStr (toLowerStr companyName)
  if name = [] then
    ⟨[], false, "none".toList, []⟩
  else if isDomain name then
    (if dns name then ⟨name, true, "direct".toList, []⟩
     else ⟨name, true, "direct".toList, []⟩)
  else
    match getCompanyDomain m name with
    | some domain => ⟨domain, true, "company_map".toList, []⟩
    | none =>
      match (generateDomainCandidates name).find? (fun c => dns c) with
      | some c => ⟨c, true, "dns_verified".toList, generateDomainCandidates name⟩
      | none => ⟨(generateDomainCandidates name).headD [], true, "pattern".toList,
          generateDomainCandidates name⟩

/-! ## `internal/generator`: email pattern generation -/

/-- `generator.EmailPattern`. -/
structure EmailPattern where
  Email : Str
  Pattern : Str
deriving DecidableEq, Repr

/-- Models `unicode.IsLetter` on the ASCII fragment exercised here. -/
def isLetterGo (c : Char) : Bool := c.isAlpha

/-- Models `unicode.IsDigit` on the ASCII fragment exercised here. -/
def isDigitGo (c : Char) : Bool := c.isDigit

/-- `generator.isValidEmailChar`: valid characters of the local part. -/
def isValidEmailChar (c : Char) : Bool :=
  isLetterGo c || isDigitGo c || c = '.' || c = '_' || c = '-' || c = '+'

/-- `generator.isValidEmailFormat`: length bounds, exactly one `@`,
local-part alphabet, and domain as two or more non-empty
alphanumeric-or-hyphen labels without a leading or trailing dot. -/
def isValidEmailFormat (email : Str) : Bool :=
  if email.length = 0 || 254 < email.length then false
  else
    let parts := email.splitOn '@'
    if !(parts.length = 2 : Bool) then false
    else
      let loc := parts.getD 0 []
      let domain := parts.getD 1 []
      if loc.length = 0 || 64 < loc.length then false
      else if domain.length = 0 || 253 < domain.length then false
      else if !(loc.all isValidEmailChar) then false
      else if headIs '.' domain || lastIs '.' domain then false
      else
        let domainParts := domain.splitOn '.'
        if domainParts.length < 2 then false
        else domainParts.all (fun part =>
          !part.isEmpty && part.all (fun c => isLetterGo c || isDigitGo c || c = '-'))

/-- The first byte of a name as a one-character string
(`string(firstName[0])` in Go; empty for the empty string). -/
def initialOf : Str → Str
  | [] => []
  | c :: _ => [c]

/-- The fixed ordered `patternList` of `GenerateEmailPatterns`, built from
the already-normalized first name, last name and domain: 20 base
patterns, then three numbered variants for each digit 0–9, then three
numbered variants for each integer 1–50. -/
def patternListOf (firstName lastName domain : Str) : List EmailPattern :=
  let fi := initialOf firstName
  let li := initialOf lastName
  let atD : Str := '@' :: domain
  let dot : Str := ['.']
  let base : List EmailPattern :=
    [ ⟨firstName ++ dot ++ lastName ++ atD, "firstname.lastname".toList⟩
    , ⟨firstName ++ lastName ++ atD, "firstnamelastname".toList⟩
    , ⟨fi ++ dot ++ lastName ++ atD, "f.lastname".toList⟩
    , ⟨fi ++ lastName ++ atD, "flastname".toList⟩
    , ⟨firstName ++ dot ++ li ++ atD, "firstname.l".toList⟩
    , ⟨firstName ++ li ++ atD, "firstnamel".toList⟩
    , ⟨firstName ++ atD, "firstname".toList⟩
    , ⟨lastName ++ atD, "lastname".toList⟩
    , ⟨lastName ++ dot ++ firstName ++ atD, "lastname.firstname".toList⟩
    , ⟨lastName ++ firstName ++ atD, "lastnamefirstname".toList⟩
    , ⟨li ++ dot ++ firstName ++ atD, "l.firstname".toList⟩
    , ⟨li ++ firstName ++ atD, "lfirstname".toList⟩
    , ⟨fi ++ '_' :: lastName ++ atD, "f_lastname".toList⟩
    , ⟨firstName ++ '_' :: lastName ++ atD, "firstname_lastname".toList⟩
    , ⟨lastName ++ '_' :: firstName ++ atD, "lastname_firstname".toList⟩
    , ⟨fi ++ li ++ atD, "fl".toList⟩
    , ⟨firstName ++ dot ++ fi ++ dot ++ lastName ++ atD, "firstname.f.lastname".toList⟩
    , ⟨lastName ++ dot ++ fi ++ atD, "lastname.f".toList⟩
    , ⟨fi ++ dot ++ firstName ++ dot ++ lastName ++ atD, "f.firstname.lastname".toList⟩
    , ⟨firstName ++ '-' :: lastName ++ atD, "firstname-lastname".toList⟩ ]
  let digitVariants : List EmailPattern :=
    (List.range 10).flatMap (fun i =>
      let num : Str := [Char.ofNat (48 + i)]
      [ ⟨firstName ++ dot ++ lastName ++ num ++ atD, "firstname.lastname".toList ++ num⟩
      , ⟨firstName ++ lastName ++ num ++ atD, "firstnamelastname".toList ++ num⟩
      , ⟨fi ++ dot ++ lastName ++ num ++ atD, "f.lastname".toList ++ num⟩ ])
  let numberVariants : List EmailPattern :=
    (List.range 50).flatMap (fun k =>
      let num : Str := (Nat.repr (k + 1)).toList
      [ ⟨firstName ++ dot ++ lastName ++ num ++ atD, "firstname.lastname".toList ++ num⟩
      , ⟨firstName ++ lastName ++ num ++ atD, "firstnamelastname".toList ++ num⟩
      , ⟨fi ++ dot ++ lastName ++ num ++ atD, "f.lastname".toList ++ num⟩ ])
  base ++ digitVariants ++ numberVariants

/-- The final loop of `GenerateEmailPatterns`: keep an entry when its
email has not been seen and passes the format check, marking kept emails
as seen (the Go `seen` map modelled as a list of seen emails). -/
def dedupValid : List EmailPattern → List Str → List EmailPattern
  | [], _ => []
  | p :: rest, seen =>
    if !(seen.contains p.Email) && isValidEmailFormat p.Email then
      p :: dedupValid rest (p.Email :: seen)
    else
      dedupValid rest seen

/-- `generator.GenerateEmailPatterns`: trim and lowercase the inputs,
return the empty list when any is empty, otherwise filter the fixed
pattern list dropping invalid and already-seen emails. -/
def generateEmailPatterns (firstName lastName domain : Str) : List EmailPattern :=
  if trimSpaceStr (toLowerStr firstName) = [] || trimSpaceStr (toLowerStr lastName) = [] ||
      trimSpaceStr (toLowerStr domain) = [] then []
  else
    dedupValid (patternListOf (trimSpaceStr (toLowerStr firstName))
      (trimSpaceStr (toLowerStr lastName)) (trimSpaceStr (toLowerStr domain))) []

/-! ## `internal/verifier`: verification results and the two oracles -/

/-- `verifier.VerificationResult` (the diagnostic `Details` map carries no
decision-relevant data and is omitted). -/
structure VerificationResult where
  Email : Str
  IsReachable : Str
  IsValid : Bool
  IsDeliverable : Bool
deriving DecidableEq, Repr

/-- The decoded oracle response shape shared by the HTTP and CLI paths:
`input`, `is_reachable`, `smtp.is_deliverable`, `syntax.is_valid_syntax`
(field `stxValid` here), `mx.accepts_mail`. -/
structure ApiResponse where
  input : Str
  isReachable : Str
  smtpDeliverable : Bool
  stxValid : Bool
  mxAccepts : Bool
deriving DecidableEq, Repr

/-- The `VerificationResult` both verifiers build from a decoded
response: `IsValid` is the conjunction of valid format and MX acceptance. -/
def resultFromApi (a : ApiResponse) : VerificationResult :=
  ⟨a.input, a.isReachable, a.stxValid && a.mxAccepts, a.smtpDeliverable⟩

/-- The synthetic outcome both verifiers substitute on failure:
`{IsReachable: unknown, IsValid: false, IsDeliverable: false}`. -/
def syntheticUnknown (email : Str) : VerificationResult :=
  ⟨email, "unknown".toList, false, false⟩

/-- What a decoded HTTP response body can look like: the single-object
shape, the array shape (tried when the object decode fails), or neither. -/
inductive HttpBody where
  | obj (a : ApiResponse)
  | arr (as : List ApiResponse)
  | malformed
deriving DecidableEq, Repr

/-- Outcome of one HTTP round trip: `client.Do` failed (with or without a
timeout — Go's HTTP client reports its timeout as a `Do` error), reading
the body failed, or a status and body arrived. -/
inductive HttpCallResult where
  | doErr (timedOut : Bool)
  | readErr
  | resp (status : Nat) (body : HttpBody)
deriving DecidableEq, Repr

/-- `HTTPVerifier.VerifyEmail`, as a function of the transport outcome:
`Do` or read errors propagate; a non-200 status yields the synthetic
unknown outcome without error; a 200 body decoding as an object, or as a
non-empty array (first element taken), yields the decoded outcome; an
empty array or an undecodable body propagates a parse error. -/
def verifyEmailHTTP (email : Str) (call : HttpCallResult) : Except Str VerificationResult :=
  match call with
  | .doErr _ => .error "failed to make request".toList
  | .readErr => .error "failed to read response".toList
  | .resp status body =>
    if !(status = 200 : Bool) then .ok (syntheticUnknown email)
    else
      match body with
      | .obj a => .ok (resultFromApi a)
      | .arr [] => .error "failed to parse response".toList
      | .arr (a :: _) => .ok (resultFromApi a)
      | .malformed => .error "failed to parse response".toList

/-- What the CLI subprocess output decodes to: the response shape or not. -/
inductive CliOutput where
  | parsed (a : ApiResponse)
  | malformed
deriving DecidableEq, Repr

/-- Outcome of one CLI invocation: `cmd.Output` failed (flag says whether
the context deadline had expired), or it produced output. -/
inductive CliCallResult where
  | execErr (timedOut : Bool)
  | output (o : CliOutput)
deriving DecidableEq, Repr

/-- `CLIVerifier.VerifyEmail`, as a function of the subprocess outcome: a
timed-out execution yields the synthetic unknown outcome without error;
any other execution failure propagates; undecodable output propagates a
parse error; decoded output yields the decoded outcome. -/
def verifyEmailCLI (email : Str) (call : CliCallResult) : Except Str VerificationResult :=
  match call with
  | .execErr true => .ok (syntheticUnknown email)
  | .execErr false => .error "failed to execute CLI".toList
  | .output (.parsed a) => .ok (resultFromApi a)
  | .output .malformed => .error "failed to parse CLI output".toList

/-- The per-candidate task body of `HTTPVerifier.VerifyEmailsBatch`: call
the single-email oracle once; on an oracle error substitute the
synthetic unknown outcome. -/
def verifyStep (oracle : Str → Except Str VerificationResult) (email : Str) :
    VerificationResult :=
  match oracle email with
  | .ok r => r
  | .error _ => syntheticUnknown email

/-- The fan-out/fan-in of `VerifyEmailsBatch`, sequentialized: one task
per candidate, each writing the slot of its own index.  The second
component records the oracle invocations (one per candidate, in index
order); the concurrency semaphore only bounds in-flight calls and does
not affect which slot receives which outcome. -/
def verifyEmailsBatchT (oracle : Str → Except Str VerificationResult) :
    List Str → List VerificationResult × List Str
  | [] => ([], [])
  | e :: rest =>
    let p := verifyEmailsBatchT oracle rest
    (verifyStep oracle e :: p.1, e :: p.2)

/-- `HTTPVerifier.VerifyEmailsBatch`: empty input short-circuits to an
empty result; otherwise every slot is filled and no error is ever
returned (per-candidate failures become synthetic outcomes). -/
def verifyEmailsBatch (oracle : Str → Except Str VerificationResult)
    (emails : List Str) : Except Str (List VerificationResult) :=
  .ok (verifyEmailsBatchT oracle emails).1

/-! ## `internal/service`: the find-email pipeline -/

/-- `service.FindEmailRequest`. -/
structure FindEmailRequest where
  FirstName : Str
  LastName : Str
  Company : Str
deriving DecidableEq, Repr

/-- `service.EmailResult`. -/
structure EmailResult where
  Email : Str
  Pattern : Str
  IsReachable : Str
  IsValid : Bool
  IsDeliverable : Bool
  Confidence : Str
deriving DecidableEq, Repr

/-- `service.FindEmailResponse`. -/
structure FindEmailResponse where
  FoundEmails : List EmailResult
  TotalChecked : Nat
  TotalFound : Nat
  Domain : Str
  DomainResolved : Bool
  Request : FindEmailRequest
deriving DecidableEq, Repr

/-- `EmailFinderService.calculateConfidence`, including the redundant
final branch of the Go code (`IsValid` selects "low" either way). -/
def calculateConfidence (r : VerificationResult) : Str :=
  if r.IsReachable = "safe".toList ∧ r.IsDeliverable then "high".toList
  else if r.IsReachable = "risky".toList ∧ r.IsDeliverable then "medium".toList
  else if r.IsValid then "low".toList
  else "low".toList

/-- `EmailFinderService.sortByConfidence`: partition into the high,
medium and default buckets (preserving order inside each) and
concatenate them. -/
def sortByConfidence (emails : List EmailResult) : List EmailResult :=
  let high := emails.filter (fun e => e.Confidence = "high".toList)
  let medium := emails.filter (fun e => e.Confidence = "medium".toList)
  let low := emails.filter (fun e =>
    ¬ e.Confidence = "high".toList ∧ ¬ e.Confidence = "medium".toList)
  high ++ medium ++ low

/-- The `emailToPattern` map built in `FindEmails` (Go map lookup of a
missing key yields the empty string). -/
def emailToPattern (patterns : List EmailPattern) (email : Str) : Str :=
  ((patterns.map (fun p => (p.Email, p.Pattern))).lookup email).getD []

/-- The filter condition of the result loop in `FindEmails`. -/
def keepResult (r : VerificationResult) : Bool :=
  !(r.IsReachable = "unknown".toList : Bool) &&
    ((r.IsReachable = "safe".toList : Bool) ||
      ((r.IsReachable = "risky".toList : Bool) && r.IsDeliverable))

/-- The `EmailResult` the result loop of `FindEmails` builds from one
kept verification outcome. -/
def toEmailResult (patterns : List EmailPattern) (r : VerificationResult) : EmailResult :=
  ⟨r.Email, emailToPattern patterns r.Email, r.IsReachable, r.IsValid,
    r.IsDeliverable, calculateConfidence r⟩

/-- The result-processing loop of `FindEmails`: keep qualifying outcomes
and attach pattern tag and confidence. -/
def processResults (patterns : List EmailPattern) (results : List VerificationResult) :
    List EmailResult :=
  results.filterMap (fun r =>
    if keepResult r then some (toEmailResult patterns r) else none)

/-- `EmailFinderService.FindEmails`: resolve the domain, generate and
optionally truncate the candidate patterns, verify them through the
injected batch verifier (whose error, if any, is propagated), then
filter, rank and assemble the response.  `dns` and `m` are the DNS
oracle and company directory of the injected resolver; `batch` is the
injected `verifier.Verifier`; `maxPatterns` is the service's limit. -/
def findEmails (dns : Str → Bool) (m : CompanyMap)
    (batch : List Str → Except Str (List VerificationResult))
    (maxPatterns : Nat) (req : FindEmailRequest) : Except Str FindEmailResponse :=
  let domainResult := resolveDomain dns m req.Company
  let domain := domainResult.Domain
  if ¬ domainResult.Resolved ∨ domain = [] then
    .ok ⟨[], 0, 0, [], false, req⟩
  else
    let patterns0 := generateEmailPatterns req.FirstName req.LastName domain
    let patterns :=
      if 0 < maxPatterns ∧ maxPatterns < patterns0.length then patterns0.take maxPatterns
      else patterns0
    if patterns = [] then
      .ok ⟨[], 0, 0, domain, true, req⟩
    else
      let emails := patterns.map (fun p => p.Email)
      match batch emails with
      | .error e => .error e
      | .ok verificationResults =>
        let foundEmails := sortByConfidence (processResults patterns verificationResults)
        .ok ⟨foundEmails, patterns.length, foundEmails.length, domain, true, req⟩

/-! ## Spec-side definitions (for refinement-style claims) -/

/-- Spec-side filtering rule of the ResultRanker: keep an outcome only if
its reachability is `safe`, or it is `risky` and deliverable.  Stated
from the spec's words, to be compared with `keepResult` from the code. -/
def specKeep (r : VerificationResult) : Bool :=
  (r.IsReachable = "safe".toList : Bool) ||
    ((r.IsReachable = "risky".toList : Bool) && r.IsDeliverable)

/-- Spec-side confidence tier: `high` iff safe and deliverable, `medium`
iff risky and deliverable, `low` otherwise.  Stated from the spec's
words, to be compared with `calculateConfidence` from the code. -/
def specTier (r : VerificationResult) : Str :=
  if r.IsReachable = "safe".toList ∧ r.IsDeliverable then "high".toList
  else if r.IsReachable = "risky".toList ∧ r.IsDeliverable then "medium".toList
  else "low".toList

/-! ## Theorems -/

/-- **C7**. Precedence examples of `ResolveDomain` on the seeded
directory: `"example.com"` is accepted directly (whatever the DNS oracle
answers), `"Zepto"` and `"Microsoft Inc"` resolve through the company
map, and the empty organization is unresolved with method `none`. -/
theorem resolveDomain_precedence_examples (dns : Str → Bool) :
    resolveDomain dns wellKnownCompanies "example.com".toList =
      ⟨"example.com".toList, true, "direct".toList, []⟩ ∧
    resolveDomain dns wellKnownCompanies "Zepto".toList =
      ⟨"zeptonow.com".toList, true, "company_map".toList, []⟩ ∧
    resolveDomain dns wellKnownCompanies "Microsoft Inc".toList =
      ⟨"microsoft.com".toList, true, "company_map".toList, []⟩ ∧
    resolveDomain dns wellKnownCompanies "".toList = ⟨[], false, "none".toList, []⟩ := by
  refine ⟨?_, rfl, rfl, rfl⟩
  show (if dns ("example.com".toList) = true then
      (⟨"example.com".toList, true, "direct".toList, []⟩ : DomainResult)
    else ⟨"example.com".toList, true, "direct".toList, []⟩) = _
  exact ite_self _

/-- **C2 (amended)**. Exhaustive error model of the two single-email
verifiers.  CLI: a timed-out call yields the terminal `unknown` outcome
without error, every other execution failure and any undecodable output
propagate an error.  HTTP: a transport failure — including the client
timeout, which surfaces as a `Do` error — and an undecodable 200 body
propagate an error; only a non-200 status yields the terminal `unknown`
outcome without error. -/
theorem verifyEmail_error_model :
    (∀ email : Str, verifyEmailCLI email (.execErr true) = .ok (syntheticUnknown email)) ∧
    (∀ email : Str,
      verifyEmailCLI email (.execErr false) = .error "failed to execute CLI".toList) ∧
    (∀ (email : Str) (a : ApiResponse),
      verifyEmailCLI email (.output (.parsed a)) = .ok (resultFromApi a)) ∧
    (∀ email : Str,
      verifyEmailCLI email (.output .malformed) = .error "failed to parse CLI output".toList) ∧
    (∀ (email : Str) (t : Bool),
      verifyEmailHTTP email (.doErr t) = .error "failed to make request".toList) ∧
    (∀ email : Str,
      verifyEmailHTTP email .readErr = .error "failed to read response".toList) ∧
    (∀ (email : Str) (status : Nat) (body : HttpBody), ¬ status = 200 →
      verifyEmailHTTP email (.resp status body) = .ok (syntheticUnknown email)) ∧
    (∀ (email : Str) (a : ApiResponse),
      verifyEmailHTTP email (.resp 200 (.obj a)) = .ok (resultFromApi a)) ∧
    (∀ (email : Str) (a : ApiResponse) (rest : List ApiResponse),
      verifyEmailHTTP email (.resp 200 (.arr (a :: rest))) = .ok (resultFromApi a)) ∧
    (∀ email : Str,
      verifyEmailHTTP email (.resp 200 (.arr [])) = .error "failed to parse response".toList) ∧
    (∀ email : Str,
      verifyEmailHTTP email (.resp 200 .malformed) = .error "failed to parse response".toList) := by
  refine ⟨fun _ => rfl, fun _ => rfl, fun _ _ => rfl, fun _ => rfl, fun _ t => rfl,
    fun _ => rfl, ?_, fun _ _ => rfl, fun _ _ _ => rfl, fun _ => rfl, fun _ => rfl⟩
  intro email status body h
  simp [verifyEmailHTTP, h]

/-- Witness for `verifyEmail_error_model` at a concrete non-200 status. -/
theorem verifyEmail_error_model_witness :
    ¬ (500 : Nat) = 200 ∧
    verifyEmailHTTP "a@b.co".toList (.resp 500 .malformed) =
      .ok (syntheticUnknown "a@b.co".toList) :=
  ⟨by decide, verifyEmail_error_model.2.2.2.2.2.2.1 "a@b.co".toList 500 .malformed (by decide)⟩

/-- **C2 (counterexample)**. The claim says a timed-out call and a
malformed payload return the `unknown` outcome without error for both
realizations.  The HTTP verifier propagates its timeout as an error, and
the CLI verifier propagates a malformed output as an error. -/
theorem verifyEmail_error_model_counterexample :
    verifyEmailHTTP "a@b.co".toList (.doErr true) =
      .error "failed to make request".toList ∧
    ¬ verifyEmailHTTP "a@b.co".toList (.doErr true) =
      .ok (syntheticUnknown "a@b.co".toList) ∧
    verifyEmailCLI "a@b.co".toList (.output .malformed) =
      .error "failed to parse CLI output".toList ∧
    ¬ verifyEmailCLI "a@b.co".toList (.output .malformed) =
      .ok (syntheticUnknown "a@b.co".toList) :=
  ⟨rfl, fun h => Except.noConfusion h, rfl, fun h => Except.noConfusion h⟩

set_option maxRecDepth 100000 in
/-- **C1 (counterexample)**. With an oracle that fails on every candidate
(a total transport failure), `VerifyEmailsBatch` still returns without
error — each slot holds the synthetic `unknown` outcome — and
`FindEmails` completes successfully with an empty result list instead of
failing with a pipeline-level error. -/
theorem batch_error_swallow_counterexample :
    verifyEmailsBatch (fun _ => .error "boom".toList) ["a@b.co".toList] =
      .ok [syntheticUnknown "a@b.co".toList] ∧
    findEmails (fun _ => false) wellKnownCompanies
        (verifyEmailsBatch (fun _ => .error "boom".toList)) 1
        ⟨"John".toList, "Doe".toList, "acme.com".toList⟩ =
      .ok ⟨[], 1, 0, "acme.com".toList, true,
        ⟨"John".toList, "Doe".toList, "acme.com".toList⟩⟩ :=
  ⟨rfl, rfl⟩

/-- The sequentialized batch is a `map` of the per-candidate step, and
records exactly the input emails as oracle invocations. -/
theorem verifyEmailsBatchT_eq (oracle : Str → Except Str VerificationResult)
    (emails : List Str) :
    verifyEmailsBatchT oracle emails = (emails.map (verifyStep oracle), emails) := by
  induction emails with
  | nil => rfl
  | cons e rest ih => simp [verifyEmailsBatchT, ih]

/-- A failing oracle call makes the step substitute the synthetic outcome. -/
theorem verifyStep_error (oracle : Str → Except Str VerificationResult) (e msg : Str)
    (h : oracle e = .error msg) : verifyStep oracle e = syntheticUnknown e := by
  simp [verifyStep, h]

/-- The synthetic outcome never passes the service's result filter. -/
theorem keepResult_syntheticUnknown (e : Str) : keepResult (syntheticUnknown e) = false := rfl

/-- A batch of synthetic outcomes is filtered away entirely. -/
theorem processResults_syntheticUnknown (patterns : List EmailPattern) (l : List Str) :
    processResults patterns (l.map syntheticUnknown) = [] := by
  unfold processResults
  rw [List.filterMap_map]
  have h : ∀ e : Str, ((fun r => if keepResult r then some (toEmailResult patterns r)
      else none) ∘ syntheticUnknown) e = none := by
    intro e
    simp [Function.comp, keepResult_syntheticUnknown]
  rw [List.filterMap_congr (fun e _ => h e)]
  simp

/-- **C4**. `VerifyEmailsBatch` returns, without error, one outcome per
candidate in input order: the result has the input's length, its `i`-th
slot is the per-candidate step applied to the `i`-th email (so each slot
depends only on its own candidate), the empty input produces the empty
output with no oracle invocation, and a candidate whose oracle call
fails gets the synthetic `unknown` outcome in its own slot. -/
theorem verifyEmailsBatch_shape (oracle : Str → Except Str VerificationResult)
    (emails : List Str) :
    (verifyEmailsBatchT oracle emails).1.length = emails.length ∧
    (∀ i : Nat, (verifyEmailsBatchT oracle emails).1[i]? =
      (emails[i]?).map (verifyStep oracle)) ∧
    (emails = [] → verifyEmailsBatchT oracle emails = ([], [])) ∧
    (∀ (i : Nat) (e msg : Str), emails[i]? = some e → oracle e = .error msg →
      (verifyEmailsBatchT oracle emails).1[i]? = some (syntheticUnknown e)) ∧
    verifyEmailsBatch oracle emails = .ok (verifyEmailsBatchT oracle emails).1 := by
  have hT := verifyEmailsBatchT_eq oracle emails
  refine ⟨?_, ?_, ?_, ?_, rfl⟩
  · rw [hT]; exact List.length_map emails _
  · intro i; rw [hT]; exact List.getElem?_map _ emails i
  · intro h; subst h; rfl
  · intro i e msg h1 h2
    rw [hT, List.getElem?_map, h1, Option.map_some']
    rw [verifyStep_error oracle e msg h2]

/-- Witness for `verifyEmailsBatch_shape`: a one-candidate batch whose
oracle call fails yields the synthetic outcome in slot 0. -/
theorem verifyEmailsBatch_shape_witness :
    (["a@b.co".toList] : List Str)[0]? = some "a@b.co".toList ∧
    (verifyEmailsBatchT (fun _ => .error "x".toList) ["a@b.co".toList]).1[0]? =
      some (syntheticUnknown "a@b.co".toList) :=
  ⟨rfl, (verifyEmailsBatch_shape (fun _ => .error "x".toList) ["a@b.co".toList]).2.2.2.1
    0 "a@b.co".toList "x".toList rfl rfl⟩

/-- **C1 (amended)**. When the single-email oracle call fails for every
candidate, `VerifyEmailsBatch` does not propagate any error: it returns
the full list of synthetic `unknown` outcomes, and `FindEmails` (with
that batch verifier injected) completes without a pipeline-level error,
returning a response whose result list is empty. -/
theorem batch_error_swallow (oracle : Str → Except Str VerificationResult)
    (emails : List Str) (h : ∀ e, ∃ msg, oracle e = .error msg) :
    verifyEmailsBatch oracle emails = .ok (emails.map syntheticUnknown) ∧
    ∀ (dns : Str → Bool) (m : CompanyMap) (maxP : Nat) (req : FindEmailRequest),
      ∃ resp : FindEmailResponse,
        findEmails dns m (verifyEmailsBatch oracle) maxP req = .ok resp ∧
        resp.FoundEmails = [] ∧ resp.TotalFound = 0 := by
  have hstep : ∀ e, verifyStep oracle e = syntheticUnknown e := by
    intro e
    obtain ⟨msg, hmsg⟩ := h e
    exact verifyStep_error oracle e msg hmsg
  have hbatch : ∀ es : List Str,
      verifyEmailsBatch oracle es = .ok (es.map syntheticUnknown) := by
    intro es
    unfold verifyEmailsBatch
    rw [verifyEmailsBatchT_eq]
    exact congrArg Except.ok (List.map_congr_left (fun e _ => hstep e))
  refine ⟨hbatch emails, ?_⟩
  intro dns m maxP req
  by_cases h1 : ¬ (resolveDomain dns m req.Company).Resolved ∨
    (resolveDomain dns m req.Company).Domain = []
  · exact ⟨⟨[], 0, 0, [], false, req⟩, by rw [findEmails, if_pos h1], rfl, rfl⟩
  · by_cases h2 :
      (if 0 < maxP ∧ maxP < (generateEmailPatterns req.FirstName req.LastName
          (resolveDomain dns m req.Company).Domain).length then
        (generateEmailPatterns req.FirstName req.LastName
          (resolveDomain dns m req.Company).Domain).take maxP
      else generateEmailPatterns req.FirstName req.LastName
        (resolveDomain dns m req.Company).Domain) = []
    · refine ⟨⟨[], 0, 0, (resolveDomain dns m req.Company).Domain, true, req⟩, ?_, rfl, rfl⟩
      rw [findEmails, if_neg h1, if_pos h2]
    · refine ⟨⟨[], (if 0 < maxP ∧ maxP < (generateEmailPatterns req.FirstName req.LastName
          (resolveDomain dns m req.Company).Domain).length then
            (generateEmailPatterns req.FirstName req.LastName
              (resolveDomain dns m req.Company).Domain).take maxP
          else generateEmailPatterns req.FirstName req.LastName
            (resolveDomain dns m req.Company).Domain).length, 0,
          (resolveDomain dns m req.Company).Domain, true, req⟩, ?_, rfl, rfl⟩
      rw [findEmails, if_neg h1, if_neg h2]
      simp only [hbatch, processResults_syntheticUnknown]
      rfl

/-- Witness for `batch_error_swallow` with a concrete failing oracle. -/
theorem batch_error_swallow_witness :
    (∀ e : Str, ∃ msg : Str,
      (fun _ : Str => (Except.error "boom".toList : Except Str VerificationResult)) e
        = .error msg) ∧
    verifyEmailsBatch (fun _ => .error "boom".toList) ["a@b.co".toList] =
      .ok (["a@b.co".toList].map syntheticUnknown) :=
  ⟨fun _ => ⟨"boom".toList, rfl⟩,
    (batch_error_swallow (fun _ => .error "boom".toList) ["a@b.co".toList]
      (fun _ => ⟨"boom".toList, rfl⟩)).1⟩

/-- The code's keep condition agrees with the spec's filtering rule: the
redundant `unknown` test changes nothing because `safe` and `risky` are
distinct from `unknown`. -/
theorem keepResult_eq_specKeep (r : VerificationResult) : keepResult r = specKeep r := by
  unfold keepResult specKeep
  by_cases hs : r.IsReachable = "safe".toList
  · have hu : ¬ r.IsReachable = "unknown".toList := by rw [hs]; decide
    simp [hs, hu]
  · by_cases hr : r.IsReachable = "risky".toList
    · have hu : ¬ r.IsReachable = "unknown".toList := by rw [hr]; decide
      simp [hs, hr, hu]
    · simp [hs, hr]
      intro h'
      rcases h' with h1 | ⟨h1, _⟩
      · rw [h1]; decide
      · rw [h1]; decide

/-- The code's confidence function agrees with the spec's tier table (the
code's final `IsValid` test selects "low" in both branches). -/
theorem calculateConfidence_eq_specTier (r : VerificationResult) :
    calculateConfidence r = specTier r := by
  unfold calculateConfidence specTier
  split_ifs <;> rfl

/-- The result loop is the map of `toEmailResult` over the kept outcomes. -/
theorem processResults_eq_filter (patterns : List EmailPattern)
    (results : List VerificationResult) :
    processResults patterns results =
      (results.filter keepResult).map (toEmailResult patterns) := by
  induction results with
  | nil => rfl
  | cons r rest ih =>
    unfold processResults at ih ⊢
    rw [List.filterMap_cons, List.filter_cons]
    cases hk : keepResult r
    · simp only [hk, ih, Bool.false_eq_true, if_false]
    · simp only [hk, ih, if_true, List.map_cons]

/-- The tier function only produces the three tier strings. -/
theorem specTier_cases (r : VerificationResult) :
    specTier r = "high".toList ∨ specTier r = "medium".toList ∨
      specTier r = "low".toList := by
  unfold specTier
  split_ifs <;> simp

/-- **C5**. The ranking stage implements the spec: an outcome is kept
exactly under the spec's rule (`safe`, or `risky` and deliverable — so
`unknown` and `invalid` are always dropped), confidence is exactly the
spec's tier table, and the output is the stable three-way partition of
the kept outcomes: all `high` in original relative order, then all
`medium`, then all `low`. -/
theorem rank_is_stable_partition (patterns : List EmailPattern)
    (results : List VerificationResult) :
    (∀ r, keepResult r = specKeep r) ∧
    (∀ r, calculateConfidence r = specTier r) ∧
    sortByConfidence (processResults patterns results) =
      ((results.filter (fun r => specKeep r && (specTier r = "high".toList : Bool))).map
        (toEmailResult patterns)) ++
      ((results.filter (fun r => specKeep r && (specTier r = "medium".toList : Bool))).map
        (toEmailResult patterns)) ++
      ((results.filter (fun r => specKeep r && (specTier r = "low".toList : Bool))).map
        (toEmailResult patterns)) := by
  refine ⟨keepResult_eq_specKeep, calculateConfidence_eq_specTier, ?_⟩
  rw [processResults_eq_filter]
  unfold sortByConfidence
  have hconf : ∀ r, (toEmailResult patterns r).Confidence = specTier r := by
    intro r
    exact calculateConfidence_eq_specTier r
  have bucket : ∀ tier : Str,
      ((results.filter keepResult).map (toEmailResult patterns)).filter
          (fun e => (e.Confidence = tier : Bool)) =
        (results.filter (fun r => specKeep r && (specTier r = tier : Bool))).map
          (toEmailResult patterns) := by
    intro tier
    rw [List.filter_map, List.filter_filter]
    refine congrArg (List.map (toEmailResult patterns)) (List.filter_congr ?_)
    intro r _
    simp only [Function.comp, hconf r, keepResult_eq_specKeep r, Bool.and_comm]
  have bucketLow :
      ((results.filter keepResult).map (toEmailResult patterns)).filter
          (fun e => (¬ e.Confidence = "high".toList ∧
            ¬ e.Confidence = "medium".toList : Bool)) =
        (results.filter (fun r => specKeep r && (specTier r = "low".toList : Bool))).map
          (toEmailResult patterns) := by
    rw [List.filter_map, List.filter_filter]
    refine congrArg (List.map (toEmailResult patterns)) (List.filter_congr ?_)
    intro r _
    simp only [Function.comp, hconf r, keepResult_eq_specKeep r]
    rcases specTier_cases r with h | h | h <;> cases hk : specKeep r <;>
      rw [h] <;> decide
  rw [bucket "high".toList, bucket "medium".toList, bucketLow]

/-- **C8**. When any of first name, last name or domain is empty after
trimming and lowercasing, `GenerateEmailPatterns` returns the empty list
(no error); consequently `FindEmails` on such a request succeeds with
`totalChecked = 0` and `totalFound = 0`, and its result does not depend
on the injected batch verifier — no oracle call can influence it. -/
theorem empty_inputs_empty_result :
    (∀ f l d : Str,
      trimSpaceStr (toLowerStr f) = [] ∨ trimSpaceStr (toLowerStr l) = [] ∨
        trimSpaceStr (toLowerStr d) = [] →
      generateEmailPatterns f l d = []) ∧
    (∀ (dns : Str → Bool) (m : CompanyMap)
        (batch batch2 : List Str → Except Str (List VerificationResult))
        (maxP : Nat) (req : FindEmailRequest),
      trimSpaceStr (toLowerStr req.FirstName) = [] ∨
        trimSpaceStr (toLowerStr req.LastName) = [] ∨
        trimSpaceStr (toLowerStr (resolveDomain dns m req.Company).Domain) = [] →
      ∃ resp : FindEmailResponse,
        findEmails dns m batch maxP req = .ok resp ∧
        resp.TotalChecked = 0 ∧ resp.TotalFound = 0 ∧
        findEmails dns m batch maxP req = findEmails dns m batch2 maxP req) := by
  have hgen0 : ∀ f l d : Str,
      trimSpaceStr (toLowerStr f) = [] ∨ trimSpaceStr (toLowerStr l) = [] ∨
        trimSpaceStr (toLowerStr d) = [] →
      generateEmailPatterns f l d = [] := by
    intro f l d h
    unfold generateEmailPatterns
    rcases h with h | h | h <;> simp [h]
  refine ⟨hgen0, ?_⟩
  intro dns m batch batch2 maxP req h
  by_cases h1 : ¬ (resolveDomain dns m req.Company).Resolved = true ∨
    (resolveDomain dns m req.Company).Domain = []
  · have e1 : findEmails dns m batch maxP req = .ok ⟨[], 0, 0, [], false, req⟩ := by
      rw [findEmails, if_pos h1]
    have e2 : findEmails dns m batch2 maxP req = .ok ⟨[], 0, 0, [], false, req⟩ := by
      rw [findEmails, if_pos h1]
    exact ⟨_, e1, rfl, rfl, e1.trans e2.symm⟩
  · have hgen : generateEmailPatterns req.FirstName req.LastName
        (resolveDomain dns m req.Company).Domain = [] := by
      rcases h with h | h | h
      · exact hgen0 _ _ _ (Or.inl h)
      · exact hgen0 _ _ _ (Or.inr (Or.inl h))
      · exact hgen0 _ _ _ (Or.inr (Or.inr h))
    have e1 : findEmails dns m batch maxP req =
        .ok ⟨[], 0, 0, (resolveDomain dns m req.Company).Domain, true, req⟩ := by
      rw [findEmails, if_neg h1, hgen]
      simp
    have e2 : findEmails dns m batch2 maxP req =
        .ok ⟨[], 0, 0, (resolveDomain dns m req.Company).Domain, true, req⟩ := by
      rw [findEmails, if_neg h1, hgen]
      simp
    exact ⟨_, e1, rfl, rfl, e1.trans e2.symm⟩

/-- Witness for `empty_inputs_empty_result`: an empty first name with a
resolvable organization yields the zero-counts response for any batch
verifier. -/
theorem empty_inputs_empty_result_witness :
    (trimSpaceStr (toLowerStr ("".toList)) = ([] : Str) ∨
      trimSpaceStr (toLowerStr "Doe".toList) = ([] : Str) ∨
      trimSpaceStr (toLowerStr ((resolveDomain (fun _ => false) wellKnownCompanies
        "Zepto".toList).Domain)) = ([] : Str)) ∧
    ∃ resp : FindEmailResponse,
      findEmails (fun _ => false) wellKnownCompanies (fun _ => .ok []) 0
        ⟨"".toList, "Doe".toList, "Zepto".toList⟩ = .ok resp ∧
      resp.TotalChecked = 0 ∧ resp.TotalFound = 0 ∧
      findEmails (fun _ => false) wellKnownCompanies (fun _ => .ok []) 0
          ⟨"".toList, "Doe".toList, "Zepto".toList⟩ =
        findEmails (fun _ => false) wellKnownCompanies (fun _ => .error "x".toList) 0
          ⟨"".toList, "Doe".toList, "Zepto".toList⟩ :=
  ⟨Or.inl rfl,
    empty_inputs_empty_result.2 (fun _ => false) wellKnownCompanies
      (fun _ => .ok []) (fun _ => .error "x".toList) 0
      ⟨"".toList, "Doe".toList, "Zepto".toList⟩ (Or.inl rfl)⟩

/-- `TrimSuffix` on a present suffix drops exactly that suffix. -/
theorem trimSuffixStr_of_suffix (s sfx : Str) (h : sfx <:+ s) :
    trimSuffixStr s sfx = s.take (s.length - sfx.length) := by
  unfold trimSuffixStr
  rw [if_pos h]

/-- `TrimSuffix` on an absent suffix is the identity. -/
theorem trimSuffixStr_of_not_suffix (s sfx : Str) (h : ¬ sfx <:+ s) :
    trimSuffixStr s sfx = s := by
  unfold trimSuffixStr
  rw [if_neg h]

/-- Folding `TrimSuffix` over suffixes none of which match changes nothing. -/
theorem foldl_trimSuffix_no_match (L : List Str) (x : Str)
    (h : ∀ a ∈ L, ¬ a <:+ x) : L.foldl trimSuffixStr x = x := by
  induction L with
  | nil => rfl
  | cons a rest ih =>
    rw [List.foldl_cons, trimSuffixStr_of_not_suffix x a (h a (List.mem_cons_self a rest))]
    exact ih (fun b hb => h b (List.mem_cons_of_mem a hb))

/-- **C3 (amended)**. The normalization strips the suffixes of the code's
fixed ordered list — the eight undotted suffixes plus the dotted
variants of `inc`, `llc`, `ltd` and `corp` only — and it strips
sequentially, so: for every organization name whose lowercase form ends
in a listed suffix, where no earlier-listed suffix matches the name and
no later-listed suffix matches the remaining prefix, the normalized
lookup key is the lowercased name with that suffix removed,
whitespace-trimmed. -/
theorem normalize_strips_matched_suffix (name : Str) (A B : List Str) (s : Str)
    (hsplit : companySuffixes = A ++ s :: B)
    (hA : ∀ a ∈ A, ¬ a <:+ toLowerStr name)
    (hs : s <:+ toLowerStr name)
    (hB : ∀ b ∈ B,
      ¬ b <:+ (toLowerStr name).take ((toLowerStr name).length - s.length)) :
    normalizeCompanyName name =
      trimSpaceStr ((toLowerStr name).take ((toLowerStr name).length - s.length)) := by
  unfold normalizeCompanyName
  rw [hsplit, List.foldl_append, foldl_trimSuffix_no_match A _ hA, List.foldl_cons,
    trimSuffixStr_of_suffix _ s hs, foldl_trimSuffix_no_match B _ hB]

/-- Witness for `normalize_strips_matched_suffix`: `"Acme Inc"` ends in
`" inc"` (the first listed suffix) and normalizes to `"acme"`. -/
theorem normalize_strips_matched_suffix_witness :
    companySuffixes = [] ++ " inc".toList ::
      [ " llc".toList, " ltd".toList, " corp".toList, " corporation".toList
      , " limited".toList, " company".toList, " co".toList, " inc.".toList
      , " llc.".toList, " ltd.".toList, " corp.".toList ] ∧
    (" inc".toList <:+ toLowerStr "Acme Inc".toList) ∧
    normalizeCompanyName "Acme Inc".toList =
      trimSpaceStr ((toLowerStr "Acme Inc".toList).take
        ((toLowerStr "Acme Inc".toList).length - (" inc".toList).length)) :=
  ⟨rfl, by decide,
    normalize_strips_matched_suffix "Acme Inc".toList [] _ " inc".toList rfl
      (by simp) (by decide) (by decide)⟩

/-- **C3 (counterexample)**. The claim says every listed suffix is also
stripped with a trailing period, but the code's list has no `" co."`
entry: `"Acme Co."` normalizes to `"acme co."`, not to `"acme"` (nor
`"acme."`). -/
theorem normalize_suffix_counterexample :
    normalizeCompanyName "Acme Co.".toList = "acme co.".toList ∧
    ¬ normalizeCompanyName "Acme Co.".toList = "acme".toList ∧
    ¬ normalizeCompanyName "Acme Co.".toList = "acme.".toList := by
  refine ⟨?_, ?_, ?_⟩ <;> decide

/-- ASCII lowercasing is idempotent on characters. -/
theorem charToLower_idem (c : Char) : c.toLower.toLower = c.toLower := by
  by_cases h : c.toNat ≥ 65 ∧ c.toNat ≤ 90
  · have hv : (c.toNat + 32).isValidChar := Or.inl (by omega)
    have h1 : Char.toLower c = Char.ofNat (c.toNat + 32) := by
      simp only [Char.toLower]
      rw [if_pos h]
    have ht : (Char.ofNat (c.toNat + 32)).toNat = c.toNat + 32 := by
      unfold Char.ofNat
      rw [dif_pos hv]
      simp [Char.ofNatAux, Char.toNat, UInt32.toNat]
    rw [h1]
    simp only [Char.toLower]
    rw [if_neg (by rw [ht]; omega)]
  · have h1 : Char.toLower c = c := by
      simp only [Char.toLower]
      rw [if_neg h]
    rw [h1, h1]

/-- Lowercasing a string is idempotent. -/
theorem toLowerStr_idem (s : Str) : toLowerStr (toLowerStr s) = toLowerStr s := by
  unfold toLowerStr
  rw [List.map_map]
  exact List.map_congr_left (fun c _ => charToLower_idem c)

/-- **C9 (amended)**. For every company name whose lowercase form carries
no leading or trailing whitespace (so that the two normalization paths
agree), is non-empty, and is not domain-shaped, resolving right after
`AddCompanyDomain(name, d)` finds `d` through the company map. -/
theorem addCompanyDomain_then_resolve (dns : Str → Bool) (m : CompanyMap) (name d : Str)
    (h1 : trimSpaceStr (toLowerStr name) = toLowerStr name)
    (h2 : ¬ toLowerStr name = [])
    (h3 : isDomain (toLowerStr name) = false) :
    resolveDomain dns (addCompanyDomain name d m) name =
      ⟨d, true, "company_map".toList, []⟩ := by
  have hkey : normalizeCompanyName (toLowerStr name) = normalizeCompanyName name := by
    unfold normalizeCompanyName
    rw [toLowerStr_idem]
  have hget : getCompanyDomain (addCompanyDomain name d m) (toLowerStr name) = some d := by
    unfold getCompanyDomain addCompanyDomain
    rw [hkey]
    simp [List.lookup]
  have h3' : ¬ isDomain (toLowerStr name) = true := by
    rw [h3]
    decide
  simp only [resolveDomain, h1]
  rw [if_neg h2, if_neg h3', hget]

/-- Witness for `addCompanyDomain_then_resolve` on the name `"acme"`. -/
theorem addCompanyDomain_then_resolve_witness :
    trimSpaceStr (toLowerStr "acme".toList) = toLowerStr "acme".toList ∧
    ¬ toLowerStr "acme".toList = ([] : Str) ∧
    isDomain (toLowerStr "acme".toList) = false ∧
    resolveDomain (fun _ => false)
        (addCompanyDomain "acme".toList "acme.org".toList wellKnownCompanies)
        "acme".toList =
      ⟨"acme.org".toList, true, "company_map".toList, []⟩ :=
  ⟨rfl, by decide, rfl,
    addCompanyDomain_then_resolve (fun _ => false) wellKnownCompanies
      "acme".toList "acme.org".toList rfl (by decide) rfl⟩

/-- **C9 (counterexample)**. `"Acme Inc "` (trailing space) has a
non-empty, non-domain-shaped trimmed lowercase form, yet after
`AddCompanyDomain("Acme Inc ", "example.org")` — which stores the key
`"acme inc"`, since the trailing space blocks suffix stripping —
resolution looks up `"acme"`, misses, and falls back to the pattern
method with domain `"acme.com"` instead of `"example.org"`. -/
theorem addCompanyDomain_then_resolve_counterexample :
    ¬ trimSpaceStr (toLowerStr "Acme Inc ".toList) = ([] : Str) ∧
    isDomain (trimSpaceStr (toLowerStr "Acme Inc ".toList)) = false ∧
    (resolveDomain (fun _ => false)
        (addCompanyDomain "Acme Inc ".toList "example.org".toList wellKnownCompanies)
        "Acme Inc ".toList).Method = "pattern".toList ∧
    ¬ (resolveDomain (fun _ => false)
        (addCompanyDomain "Acme Inc ".toList "example.org".toList wellKnownCompanies)
        "Acme Inc ".toList).Method = "company_map".toList ∧
    ¬ (resolveDomain (fun _ => false)
        (addCompanyDomain "Acme Inc ".toList "example.org".toList wellKnownCompanies)
        "Acme Inc ".toList).Domain = "example.org".toList := by
  refine ⟨?_, ?_, ?_, ?_, ?_⟩ <;> decide

/-- A property preserved by every fold step holds of the fold. -/
theorem foldl_inv {α β : Type} (Inv : α → Prop) (f : α → β → α)
    (hf : ∀ acc x, Inv acc → Inv (f acc x)) :
    ∀ (l : List β) (acc : α), Inv acc → Inv (l.foldl f acc) := by
  intro l
  induction l with
  | nil => intro acc h; exact h
  | cons x rest ih =>
    intro acc h
    exact ih (f acc x) (hf acc x h)

/-- The candidate list is never empty, contains only non-empty domains,
and its first element is the cleaned name dotted with `com`. -/
theorem generateDomainCandidates_props (n : Str) :
    ¬ generateDomainCandidates n = [] ∧
    (∀ c ∈ generateDomainCandidates n, ¬ c = []) ∧
    (generateDomainCandidates n).headD [] =
      cleanCompanyName n ++ '.' :: "com".toList := by
  have hInvDef : ∀ acc : List Str,
      (¬ acc = [] ∧ (∀ c ∈ acc, ¬ c = []) ∧
        acc.headD [] = cleanCompanyName n ++ '.' :: "com".toList) →
      True := fun _ _ => trivial
  set Inv : List Str → Prop := fun acc =>
    ¬ acc = [] ∧ (∀ c ∈ acc, ¬ c = []) ∧
      acc.headD [] = cleanCompanyName n ++ '.' :: "com".toList with hInv
  have hstep2 : ∀ (v : Str) (acc : List Str) (tld : Str),
      Inv acc → Inv (addUnique acc (v ++ '.' :: tld)) := by
    intro v acc tld h
    obtain ⟨hne, hall, hhead⟩ := h
    unfold addUnique
    by_cases hc : acc.contains (v ++ '.' :: tld)
    · rw [if_pos hc]
      exact ⟨hne, hall, hhead⟩
    · rw [if_neg hc]
      refine ⟨by simp, ?_, ?_⟩
      · intro c hcmem
        rcases List.mem_append.mp hcmem with hmem | hmem
        · exact hall c hmem
        · rw [List.mem_singleton.mp hmem]
          simp
      · cases acc with
        | nil => exact absurd rfl hne
        | cons a as => simpa using hhead
  have hbase : Inv (candidateTlds.map (fun tld => cleanCompanyName n ++ '.' :: tld)) := by
    refine ⟨by simp [candidateTlds], ?_, by simp [candidateTlds]⟩
    intro c hc
    rcases List.mem_map.mp hc with ⟨tld, _, rfl⟩
    simp
  have hfold : Inv (generateDomainCandidates n) := by
    unfold generateDomainCandidates
    exact foldl_inv Inv _
      (fun acc v h => foldl_inv Inv _ (fun acc2 tld h2 => hstep2 v acc2 tld h2)
        candidateTlds acc h)
      (getCompanyVariations (cleanCompanyName n)) _ hbase
  exact hfold

/-- A value returned by an association-list lookup is stored in the list. -/
theorem lookup_value_mem (m : CompanyMap) (k v : Str) (h : m.lookup k = some v) :
    ∃ kk, (kk, v) ∈ m := by
  induction m with
  | nil => cases h
  | cons p rest ih =>
    cases p with
    | mk a b =>
      unfold List.lookup at h
      split at h
      · cases h
        exact ⟨a, List.mem_cons_self _ _⟩
      · obtain ⟨kk, hmem⟩ := ih h
        exact ⟨kk, List.mem_cons_of_mem _ hmem⟩

/-- **C10 (amended)**. `ResolveDomain` returns `resolved = false` (method
`none`) exactly when the trimmed input is empty.  For every non-blank
organization — whatever the DNS oracle answers — it returns a result
with `resolved = true`, the fixed 10-TLD cross product makes the
candidate list non-empty, and the returned domain is non-empty provided
every domain stored in the directory is non-empty (as in the seeded
table). -/
theorem resolveDomain_total (dns : Str → Bool) (m : CompanyMap)
    (hm : ∀ p ∈ m, ¬ p.2 = ([] : Str)) (name : Str) :
    (trimSpaceStr (toLowerStr name) = [] →
      resolveDomain dns m name = ⟨[], false, "none".toList, []⟩) ∧
    (¬ trimSpaceStr (toLowerStr name) = [] →
      ¬ generateDomainCandidates (trimSpaceStr (toLowerStr name)) = [] ∧
      ∃ (dom mth : Str) (cands : List Str),
        resolveDomain dns m name = ⟨dom, true, mth, cands⟩ ∧ ¬ dom = []) := by
  constructor
  · intro h
    rw [resolveDomain, if_pos h]
  · intro h
    have hprops := generateDomainCandidates_props (trimSpaceStr (toLowerStr name))
    refine ⟨hprops.1, ?_⟩
    by_cases hd : isDomain (trimSpaceStr (toLowerStr name)) = true
    · refine ⟨trimSpaceStr (toLowerStr name), "direct".toList, [], ?_, h⟩
      rw [resolveDomain, if_neg h, if_pos hd]
      exact ite_self _
    · cases hlook : getCompanyDomain m (trimSpaceStr (toLowerStr name)) with
      | some dmn =>
        refine ⟨dmn, "company_map".toList, [], ?_, ?_⟩
        · rw [resolveDomain, if_neg h, if_neg hd, hlook]
        · have hmem : ∃ kk, (kk, dmn) ∈ m := by
            unfold getCompanyDomain at hlook
            exact lookup_value_mem m _ dmn hlook
          obtain ⟨kk, hmem⟩ := hmem
          exact hm (kk, dmn) hmem
      | none =>
        cases hfind : (generateDomainCandidates (trimSpaceStr (toLowerStr name))).find?
            (fun c => dns c) with
        | some c =>
          refine ⟨c, "dns_verified".toList,
            generateDomainCandidates (trimSpaceStr (toLowerStr name)), ?_, ?_⟩
          · rw [resolveDomain, if_neg h, if_neg hd, hlook, hfind]
          · exact hprops.2.1 c (List.mem_of_find?_eq_some hfind)
        | none =>
          refine ⟨(generateDomainCandidates (trimSpaceStr (toLowerStr name))).headD [],
            "pattern".toList,
            generateDomainCandidates (trimSpaceStr (toLowerStr name)), ?_, ?_⟩
          · rw [resolveDomain, if_neg h, if_neg hd, hlook, hfind]
          · rw [hprops.2.2]
            simp

/-- Witness for `resolveDomain_total` on the seeded directory and the
non-blank organization `"Acme"`. -/
theorem resolveDomain_total_witness :
    (∀ p ∈ wellKnownCompanies, ¬ p.2 = ([] : Str)) ∧
    ¬ trimSpaceStr (toLowerStr "Acme".toList) = ([] : Str) ∧
    (¬ generateDomainCandidates (trimSpaceStr (toLowerStr "Acme".toList)) = [] ∧
      ∃ (dom mth : Str) (cands : List Str),
        resolveDomain (fun _ => false) wellKnownCompanies "Acme".toList =
          ⟨dom, true, mth, cands⟩ ∧ ¬ dom = []) :=
  ⟨by decide, by decide,
    (resolveDomain_total (fun _ => false) wellKnownCompanies (by decide)
      "Acme".toList).2 (by decide)⟩

/-- **C10 (counterexample)**. The claim promises a non-empty domain
"regardless of directory contents", but a directory entry whose stored
domain is the empty string is returned as-is: resolution of the
non-blank `"Acme"` against such a directory yields `resolved = true`
with an empty domain. -/
theorem resolveDomain_total_counterexample :
    ¬ trimSpaceStr (toLowerStr "Acme".toList) = ([] : Str) ∧
    resolveDomain (fun _ => false) [("acme".toList, ([] : Str))] "Acme".toList =
      ⟨[], true, "company_map".toList, []⟩ :=
  ⟨by decide, rfl⟩

/-- Every entry kept by the dedup/validity loop passes the format check. -/
theorem dedupValid_valid : ∀ (l : List EmailPattern) (seen : List Str),
    ∀ p ∈ dedupValid l seen, isValidEmailFormat p.Email = true := by
  intro l
  induction l with
  | nil => intro seen p hp; cases hp
  | cons a rest ih =>
    intro seen p hp
    by_cases hcond : (!(seen.contains a.Email) && isValidEmailFormat a.Email) = true
    · rw [dedupValid, if_pos hcond] at hp
      rcases List.mem_cons.mp hp with rfl | hmem
      · exact ((Bool.and_eq_true _ _).mp hcond).2
      · exact ih (a.Email :: seen) p hmem
    · rw [dedupValid, if_neg hcond] at hp
      exact ih seen p hp

/-- No kept entry's email was in the seen set the loop started with. -/
theorem dedupValid_not_seen : ∀ (l : List EmailPattern) (seen : List Str),
    ∀ p ∈ dedupValid l seen, seen.contains p.Email = false := by
  intro l
  induction l with
  | nil => intro seen p hp; cases hp
  | cons a rest ih =>
    intro seen p hp
    by_cases hcond : (!(seen.contains a.Email) && isValidEmailFormat a.Email) = true
    · rw [dedupValid, if_pos hcond] at hp
      rcases List.mem_cons.mp hp with rfl | hmem
      · have := ((Bool.and_eq_true _ _).mp hcond).1
        cases hcv : seen.contains p.Email
        · rfl
        · rw [hcv] at this; cases this
      · have htail := ih (a.Email :: seen) p hmem
        rw [List.contains_cons] at htail
        cases hcv : seen.contains p.Email
        · rfl
        · rw [hcv, Bool.or_true] at htail; cases htail
    · rw [dedupValid, if_neg hcond] at hp
      exact ih seen p hp

/-- The dedup/validity loop preserves the relative order of the input. -/
theorem dedupValid_sublist : ∀ (l : List EmailPattern) (seen : List Str),
    (dedupValid l seen).Sublist l := by
  intro l
  induction l with
  | nil => intro seen; exact List.nil_sublist []
  | cons a rest ih =>
    intro seen
    by_cases hcond : (!(seen.contains a.Email) && isValidEmailFormat a.Email) = true
    · rw [dedupValid, if_pos hcond]
      exact List.Sublist.cons₂ a (ih (a.Email :: seen))
    · rw [dedupValid, if_neg hcond]
      exact List.Sublist.cons a (ih seen)

/-- The kept entries contain no repeated email string. -/
theorem dedupValid_nodup : ∀ (l : List EmailPattern) (seen : List Str),
    ((dedupValid l seen).map (fun p => p.Email)).Nodup := by
  intro l
  induction l with
  | nil => intro seen; exact List.nodup_nil
  | cons a rest ih =>
    intro seen
    by_cases hcond : (!(seen.contains a.Email) && isValidEmailFormat a.Email) = true
    · rw [dedupValid, if_pos hcond, List.map_cons, List.nodup_cons]
      refine ⟨?_, ih (a.Email :: seen)⟩
      intro hmem
      rcases List.mem_map.mp hmem with ⟨p, hp, hpe⟩
      have hns := dedupValid_not_seen rest (a.Email :: seen) p hp
      rw [List.contains_cons, hpe, beq_self_eq_true, Bool.true_or] at hns
      cases hns
    · rw [dedupValid, if_neg hcond]
      exact ih seen

/-- Every valid input email is either already seen or among the kept ones. -/
theorem dedupValid_complete : ∀ (l : List EmailPattern) (seen : List Str)
    (q : EmailPattern), q ∈ l → isValidEmailFormat q.Email = true →
    seen.contains q.Email = true ∨
      q.Email ∈ (dedupValid l seen).map (fun p => p.Email) := by
  intro l
  induction l with
  | nil => intro seen q hq _; cases hq
  | cons a rest ih =>
    intro seen q hq hv
    by_cases hcond : (!(seen.contains a.Email) && isValidEmailFormat a.Email) = true
    · rw [dedupValid, if_pos hcond]
      rcases List.mem_cons.mp hq with rfl | hmem
      · right
        rw [List.map_cons]
        exact List.mem_cons_self _ _
      · rcases ih (a.Email :: seen) q hmem hv with hs | hm
        · rw [List.contains_cons] at hs
          cases hqa : (q.Email == a.Email)
          · rw [hqa, Bool.false_or] at hs
            exact Or.inl hs
          · right
            rw [List.map_cons, eq_of_beq hqa]
            exact List.mem_cons_self _ _
        · right
          rw [List.map_cons]
          exact List.mem_cons_of_mem _ hm
    · rw [dedupValid, if_neg hcond]
      rcases List.mem_cons.mp hq with rfl | hmem
      · left
        cases hcv : seen.contains q.Email
        · exfalso
          apply hcond
          rw [hcv, hv]
          rfl
        · rfl
      · exact ih seen q hmem hv

/-- Each kept entry is the first unseen input entry bearing its email. -/
theorem dedupValid_first : ∀ (l : List EmailPattern) (seen : List Str)
    (p : EmailPattern), p ∈ dedupValid l seen →
    l.find? (fun q => !seen.contains q.Email && (q.Email == p.Email)) = some p := by
  intro l
  induction l with
  | nil => intro seen p hp; cases hp
  | cons a rest ih =>
    intro seen p hp
    by_cases hcond : (!(seen.contains a.Email) && isValidEmailFormat a.Email) = true
    · rw [dedupValid, if_pos hcond] at hp
      rcases List.mem_cons.mp hp with rfl | hmem
      · refine List.find?_cons_of_pos rest ?_
        rw [beq_self_eq_true, ((Bool.and_eq_true _ _).mp hcond).1]
        rfl
      · have hps := dedupValid_not_seen rest (a.Email :: seen) p hmem
        rw [List.contains_cons] at hps
        have hne : (p.Email == a.Email) = false := by
          cases hv : (p.Email == a.Email)
          · rfl
          · rw [hv, Bool.true_or] at hps; cases hps
        have hne2 : (a.Email == p.Email) = false := by
          rw [beq_eq_false_iff_ne] at hne ⊢
          exact fun hEq => hne hEq.symm
        have hfr := ih (a.Email :: seen) p hmem
        have hpredEq : (fun q : EmailPattern =>
            !(a.Email :: seen).contains q.Email && (q.Email == p.Email)) =
            (fun q : EmailPattern => !seen.contains q.Email && (q.Email == p.Email)) := by
          funext q
          cases hqp : (q.Email == p.Email)
          · rw [Bool.and_false, Bool.and_false]
          · have hqa : (q.Email == a.Email) = false := by
              rw [beq_eq_false_iff_ne] at hne ⊢
              rw [eq_of_beq hqp]
              exact fun hEq => hne hEq
            rw [List.contains_cons, hqa, Bool.false_or]
        rw [hpredEq] at hfr
        rw [List.find?_cons_of_neg rest (by rw [hne2, Bool.and_false]; exact Bool.false_ne_true)]
        exact hfr
    · rw [dedupValid, if_neg hcond] at hp
      have hvp := dedupValid_valid rest seen p hp
      have hns := dedupValid_not_seen rest seen p hp
      have hpa : (!seen.contains a.Email && (a.Email == p.Email)) = false := by
        cases hq : (a.Email == p.Email)
        · exact Bool.and_false _
        · have hEq : a.Email = p.Email := eq_of_beq hq
          have hcontains : seen.contains a.Email = true := by
            cases hcv : seen.contains a.Email
            · exfalso
              apply hcond
              rw [hcv, hEq, hvp]
              rfl
            · rfl
          rw [hcontains]
          rfl
      rw [List.find?_cons_of_neg rest (by rw [hpa]; exact Bool.false_ne_true)]
      exact ih seen p hp


/-- **C6**. Every email returned by `GenerateEmailPatterns` passes the
format validator; the returned list has no repeated email string; it is
a subsequence of the fixed pattern list (priority order preserved); each
returned entry is the first occurrence of its email in the pattern
sequence; and, for non-empty normalized inputs, every valid email of the
pattern sequence is represented (so only invalid and duplicate emails
are dropped, first occurrence winning). -/
theorem generateEmailPatterns_spec (f l d : Str) :
    (∀ p ∈ generateEmailPatterns f l d, isValidEmailFormat p.Email = true) ∧
    ((generateEmailPatterns f l d).map (fun p => p.Email)).Nodup ∧
    (generateEmailPatterns f l d).Sublist
      (patternListOf (trimSpaceStr (toLowerStr f)) (trimSpaceStr (toLowerStr l))
        (trimSpaceStr (toLowerStr d))) ∧
    (∀ p ∈ generateEmailPatterns f l d,
      (patternListOf (trimSpaceStr (toLowerStr f)) (trimSpaceStr (toLowerStr l))
        (trimSpaceStr (toLowerStr d))).find? (fun q => q.Email == p.Email) = some p) ∧
    (∀ q ∈ patternListOf (trimSpaceStr (toLowerStr f)) (trimSpaceStr (toLowerStr l))
        (trimSpaceStr (toLowerStr d)),
      isValidEmailFormat q.Email = true →
      ¬ trimSpaceStr (toLowerStr f) = [] → ¬ trimSpaceStr (toLowerStr l) = [] →
      ¬ trimSpaceStr (toLowerStr d) = [] →
      q.Email ∈ (generateEmailPatterns f l d).map (fun p => p.Email)) := by
  unfold generateEmailPatterns
  split
  case isTrue hcond =>
    refine ⟨fun p hp => absurd hp (List.not_mem_nil p), List.nodup_nil,
      List.nil_sublist _, fun p hp => absurd hp (List.not_mem_nil p), ?_⟩
    intro q _ _ h1 h2 h3
    rw [Bool.or_eq_true, Bool.or_eq_true, decide_eq_true_eq, decide_eq_true_eq,
      decide_eq_true_eq] at hcond
    rcases hcond with (hc | hc) | hc
    · exact absurd hc h1
    · exact absurd hc h2
    · exact absurd hc h3
  case isFalse hcond =>
    refine ⟨dedupValid_valid _ [], dedupValid_nodup _ [], dedupValid_sublist _ [],
      ?_, ?_⟩
    · intro p hp
      have hfind := dedupValid_first _ [] p hp
      have hpredEq : (fun q : EmailPattern =>
          !([] : List Str).contains q.Email && (q.Email == p.Email)) =
          (fun q : EmailPattern => q.Email == p.Email) := by
        funext q
        rfl
      rw [hpredEq] at hfind
      exact hfind
    · intro q hq hv _ _ _
      rcases dedupValid_complete _ [] q hq hv with hs | hm
      · exact absurd hs Bool.false_ne_true
      · exact hm


/-- Witness for `generateEmailPatterns_spec`: for John Doe at acme.com,
the first pattern `john.doe@acme.com` is valid and is produced. -/
theorem generateEmailPatterns_spec_witness :
    (⟨"john.doe@acme.com".toList, "firstname.lastname".toList⟩ : EmailPattern) ∈
      patternListOf (trimSpaceStr (toLowerStr "John".toList))
        (trimSpaceStr (toLowerStr "Doe".toList))
        (trimSpaceStr (toLowerStr "acme.com".toList)) ∧
    isValidEmailFormat ("john.doe@acme.com".toList) = true ∧
    "john.doe@acme.com".toList ∈
      (generateEmailPatterns "John".toList "Doe".toList "acme.com".toList).map
        (fun p => p.Email) :=
  ⟨by decide, by decide,
    (generateEmailPatterns_spec "John".toList "Doe".toList "acme.com".toList).2.2.2.2
      ⟨"john.doe@acme.com".toList, "firstname.lastname".toList⟩ (by decide) (by decide)
      (by decide) (by decide) (by decide)⟩

end EmailFinder
